import Mathlib

/-!
Shallow embedding of the generic ECS runtime in `src/ECS/ECS.hpp`
(class `ECS<Components...>::WithServices<Services...>`).

Modelling conventions:
* The declared component types and service types of the C++ template become
  slot positions `0, ..., nc-1` and `0, ..., ns-1`.  Since all claims concern
  slot presence and slot values (never the identity of the C++ types), every
  component slot holds an `Option γ` and every service slot an `Option σ`
  for value-type parameters `γ`, `σ`.
* An entity (`std::tuple<std::optional<Components>...>`) is a `Row γ`:
  a list of optional slots.  The engine's `_services` tuple
  (`std::tuple<std::optional<ManagerService>, std::optional<Services>...>`)
  is an `SRow σ` with a dedicated manager slot (the manager's value is a
  back-reference to the engine; only its presence and its `RequestStop`
  capability matter, so it is modelled as `Option Unit`).
* `std::map` registries become key-sorted association lists
  `List (Nat × _)`; `find` / `emplace` / `erase(find(k))` become
  `findKey` / `insertKey` / `eraseKey`.
* A thrown C++ exception becomes an `EcsError`; operations that throw before
  mutating return the error together with the unchanged state.
* The dual-mode concurrency controller (`_mainLoop`, `_localContinue`,
  the jthread stop token) becomes the `Ctrl` record; `Run`'s busy loop is
  given fuel and `none` models divergence (fuel exhaustion).
* A registered behaviour function receives references to the values stored
  in the requested slots, plus the manager reference if requested.  Through
  those references it can replace the requested values and invoke the
  manager's `RequestStop`, but it cannot change the presence of any slot
  (it holds `T&`, never the `std::optional` itself).  `Behavior` /
  `SABehavior` capture exactly that interface: they receive the extracted
  values and return replacement values together with a flag saying whether
  `RequestStop` was invoked on the manager reference.
* Taking `.value()` of an empty `std::optional` is undefined behaviour; the
  built consumers therefore return `Option _`, with `none` marking such an
  access.
-/

namespace ECSModel

/-- Error taxonomy of the engine (the exceptions thrown in `ECS.hpp`,
named as in the specification's error-handling section). -/
inductive EcsError where
  | invalidEntity
  | invalidSystem
  | invalidServiceAction
  | alreadyInstalled
  | alreadyUninstalled
  | illFormedRegistration
  | alreadyDispatched
  | notDispatched
deriving DecidableEq, Repr

/-- Read slot `i` of a row of optional slots (`std::get` on the tuple of
`std::optional`s; out of range never occurs in the type-indexed C++ code). -/
def getSlot {α : Type} : List (Option α) → Nat → Option α
  | [], _ => none
  | x :: _, 0 => x
  | _ :: xs, n + 1 => getSlot xs n

/-- Write slot `i` of a row of optional slots. -/
def setSlot {α : Type} : List (Option α) → Nat → Option α → List (Option α)
  | [], _, _ => []
  | _ :: xs, 0, v => v :: xs
  | x :: xs, n + 1, v => x :: setSlot xs n v

/-- An entity's row: one optional slot per declared component type
(`std::tuple<std::optional<Components>...>`). -/
abbrev Row (γ : Type) := List (Option γ)

/-- The engine's service row: the dedicated manager slot plus one optional
slot per declared service type
(`std::tuple<std::optional<ManagerService>, std::optional<Services>...>`). -/
structure SRow (σ : Type) where
  manager : Option Unit
  slots : List (Option σ)
deriving DecidableEq, Repr

/-- A requested service in a registration: either one of the declared
service types (by slot position) or the built-in manager service. -/
inductive SvcRef where
  | manager
  | svc (i : Nat)
deriving DecidableEq, Repr

/-- A service value handed to a behaviour function: the manager reference
(`inl`) or a declared service's value (`inr`). -/
abbrev SvcVal (σ : Type) := Unit ⊕ σ

/-- One observable invocation performed during a sweep. -/
inductive Event where
  | saInvoked (said : Nat)
  | sysInvoked (sysId : Nat) (entId : Nat)
deriving DecidableEq, Repr

/-- The concurrency-controller state: `dispatched` is `_mainLoop.joinable()`,
`stopRequested` is the dispatched worker's stop-token state, and
`localContinue` is the `_localContinue` flag of the synchronous loop. -/
structure Ctrl where
  dispatched : Bool
  stopRequested : Bool
  localContinue : Bool
deriving DecidableEq, Repr

/-- `WithServices::RequestStop` (ECS.hpp lines 829-836): if `_mainLoop` is
joinable, return `request_stop()` on it (which is `true` exactly when stop
had not been requested before); otherwise clear `_localContinue` and return
`true`. -/
def requestStopCtrl (c : Ctrl) : Bool × Ctrl :=
  if c.dispatched then
    (!c.stopRequested, { c with stopRequested := true })
  else
    (true, { c with localContinue := false })

/-- Presence check of one requested service slot (the `has_value()` call on
the slot selected by `std::get` inside the service validators). -/
def svcPresent {σ : Type} (srow : SRow σ) : SvcRef → Bool
  | .manager => srow.manager.isSome
  | .svc i => (getSlot srow.slots i).isSome

/-- The component validator manufactured by `AddSystem`
(ECS.hpp lines 522-548): the fold over the requested component types of
`has_value()` on the corresponding slot. -/
def componentValidator {γ : Type} (reqC : List Nat) (row : Row γ) : Bool :=
  reqC.all fun i => (getSlot row i).isSome

/-- The service validator manufactured by `AddSystem` (ECS.hpp lines
551-579) and by `AddServiceAction` (lines 658-686): the fold over the
requested service types (manager included) of `has_value()` on the
corresponding slot. -/
def serviceValidator {σ : Type} (reqS : List SvcRef) (srow : SRow σ) : Bool :=
  reqS.all (svcPresent srow)

/-- The `.value()...` pack expansion over the requested component slots in
the consumer built by `AddSystem` (ECS.hpp lines 590-598); `none` marks a
`.value()` call on an empty optional. -/
def extractComps {γ : Type} : List Nat → Row γ → Option (List γ)
  | [], _ => some []
  | i :: is, row =>
    match getSlot row i, extractComps is row with
    | some v, some vs => some (v :: vs)
    | _, _ => none

/-- The `.value()...` pack expansion over the requested service slots
(manager included) in the consumers built by `AddSystem` and
`AddServiceAction`; `none` marks a `.value()` call on an empty optional. -/
def extractSvcs {σ : Type} : List SvcRef → SRow σ → Option (List (SvcVal σ))
  | [], _ => some []
  | .manager :: rs, srow =>
    match srow.manager, extractSvcs rs srow with
    | some _, some vs => some (Sum.inl () :: vs)
    | _, _ => none
  | .svc i :: rs, srow =>
    match getSlot srow.slots i, extractSvcs rs srow with
    | some v, some vs => some (Sum.inr v :: vs)
    | _, _ => none

/-- The effect, on the entity's row, of the behaviour function writing new
values through the component references it received. -/
def writeBackComps {γ : Type} : List Nat → List γ → Row γ → Row γ
  | i :: is, v :: vs, row => writeBackComps is vs (setSlot row i (some v))
  | _, _, row => row

/-- The effect, on the service row, of the behaviour function writing new
values through the service references it received (writing through the
manager reference does not change the engine-bound manager slot). -/
def writeBackSvcs {σ : Type} : List SvcRef → List (SvcVal σ) → SRow σ → SRow σ
  | [], _, sr => sr
  | _ :: _, [], sr => sr
  | SvcRef.manager :: rs, _ :: vs, sr => writeBackSvcs rs vs sr
  | SvcRef.svc _ :: rs, Sum.inl _ :: vs, sr => writeBackSvcs rs vs sr
  | SvcRef.svc i :: rs, Sum.inr v :: vs, sr =>
      writeBackSvcs rs vs { sr with slots := setSlot sr.slots i (some v) }

/-- A system's underlying behaviour function
(`void (*)(std::tuple<SpecificComponents...>, std::tuple<SpecificServices...>)`):
it receives the extracted component and service values and, through the
references, may replace them and may invoke `RequestStop` on the manager
reference (the final `Bool`). -/
structure Behavior (γ σ : Type) where
  run : List γ → List (SvcVal σ) → List γ × List (SvcVal σ) × Bool

/-- A service action's underlying behaviour function
(`void (*)(SpecificServices...)`). -/
structure SABehavior (σ : Type) where
  run : List (SvcVal σ) → List (SvcVal σ) × Bool

/-- `SystemWrapper` (ECS.hpp lines 96-209): the stored consumer and the two
stored validators.  The consumer returns `none` when it would take
`.value()` of an empty optional. -/
structure SystemWrapper (γ σ : Type) where
  consumer : Row γ → SRow σ → Ctrl → Option (Row γ × SRow σ × Ctrl)
  componentValidator : Row γ → Bool
  serviceValidator : SRow σ → Bool

/-- `ServiceActionWrapper` (ECS.hpp lines 212-298). -/
structure ServiceActionWrapper (σ : Type) where
  consumer : SRow σ → Ctrl → Option (SRow σ × Ctrl)
  validator : SRow σ → Bool

/-- The consumer closure manufactured by `AddSystem` (ECS.hpp lines
582-609): extract the requested component and service values with
`.value()` and forward them to the behaviour function; the behaviour's
writes go back through the references, and an invocation of the manager's
`RequestStop` (possible only if the manager reference was requested) acts
on the controller. -/
def mkConsumer {γ σ : Type} (reqC : List Nat) (reqS : List SvcRef) (b : Behavior γ σ) :
    Row γ → SRow σ → Ctrl → Option (Row γ × SRow σ × Ctrl) :=
  fun row srow ctrl =>
    match extractComps reqC row, extractSvcs reqS srow with
    | some cvals, some svals =>
      let out := b.run cvals svals
      some (writeBackComps reqC out.1 row,
            writeBackSvcs reqS out.2.1 srow,
            if out.2.2 && reqS.contains SvcRef.manager then
              (requestStopCtrl ctrl).2
            else ctrl)
    | _, _ => none

/-- The wrapper stored by `AddSystem` (ECS.hpp lines 612-616). -/
def mkSystemWrapper {γ σ : Type} (reqC : List Nat) (reqS : List SvcRef) (b : Behavior γ σ) :
    SystemWrapper γ σ where
  consumer := mkConsumer reqC reqS b
  componentValidator := componentValidator reqC
  serviceValidator := serviceValidator reqS

/-- The consumer closure manufactured by `AddServiceAction`
(ECS.hpp lines 689-704). -/
def mkSAConsumer {σ : Type} (reqS : List SvcRef) (b : SABehavior σ) :
    SRow σ → Ctrl → Option (SRow σ × Ctrl) :=
  fun srow ctrl =>
    match extractSvcs reqS srow with
    | some svals =>
      let out := b.run svals
      some (writeBackSvcs reqS out.1 srow,
            if out.2 && reqS.contains SvcRef.manager then
              (requestStopCtrl ctrl).2
            else ctrl)
    | none => none

/-- The wrapper stored by `AddServiceAction` (ECS.hpp lines 707-708). -/
def mkSAWrapper {σ : Type} (reqS : List SvcRef) (b : SABehavior σ) :
    ServiceActionWrapper σ where
  consumer := mkSAConsumer reqS b
  validator := serviceValidator reqS

/-- `std::map::find` on a key-sorted association list (key match only; the
sorting is irrelevant to lookup). -/
def findKey {α : Type} (k : Nat) : List (Nat × α) → Option α
  | [] => none
  | p :: rest => if p.1 = k then some p.2 else findKey k rest

/-- `std::map::emplace` on a key-sorted association list: insert in key
order, no overwrite when the key already exists. -/
def insertKey {α : Type} (k : Nat) (v : α) : List (Nat × α) → List (Nat × α)
  | [] => [(k, v)]
  | p :: rest =>
    if k < p.1 then (k, v) :: p :: rest
    else if k = p.1 then p :: rest
    else p :: insertKey k v rest

/-- `std::map::erase(find(k))`: remove the entry with key `k`. -/
def eraseKey {α : Type} (k : Nat) : List (Nat × α) → List (Nat × α)
  | [] => []
  | p :: rest => if p.1 = k then rest else p :: eraseKey k rest

/-- The whole engine state of `ECS<Components...>::WithServices<Services...>`
for `nc` declared component types and `ns` declared service types. -/
structure State (γ σ : Type) (nc ns : Nat) where
  entities : List (Nat × Row γ)
  systems : List (Nat × SystemWrapper γ σ)
  serviceActions : List (Nat × ServiceActionWrapper σ)
  services : SRow σ
  ctrl : Ctrl
  nextEntityID : Nat
  nextSystemID : Nat
  nextServiceActionID : Nat

/-- The freshly constructed engine (`WithServices()`, ECS.hpp lines 86-90):
empty registries, the manager slot populated, every declared service slot
absent, counters at zero, nothing running. -/
def initState (γ σ : Type) (nc ns : Nat) : State γ σ nc ns where
  entities := []
  systems := []
  serviceActions := []
  services := { manager := some (), slots := List.replicate ns none }
  ctrl := { dispatched := false, stopRequested := false, localContinue := false }
  nextEntityID := 0
  nextSystemID := 0
  nextServiceActionID := 0

/-- The fold in `AddEntity` (ECS.hpp lines 410-421) that assigns each passed
initial component value to its slot on the default-initialised tuple. -/
def assignInits {γ : Type} : List (Nat × γ) → Row γ → Row γ
  | [], r => r
  | iv :: rest, r => assignInits rest (setSlot r iv.1 (some iv.2))

/-- `WithServices::AddEntity` (ECS.hpp lines 403-428): fresh ID, a
default-initialised row, the passed initial values assigned to their slots,
then the row emplaced into storage. -/
def AddEntity {γ σ : Type} {nc ns : Nat} (s : State γ σ nc ns)
    (inits : List (Nat × γ)) : Nat × State γ σ nc ns :=
  let targetID := s.nextEntityID
  let row := assignInits inits (List.replicate nc none)
  (targetID,
   { s with entities := insertKey targetID row s.entities,
            nextEntityID := targetID + 1 })

/-- `WithServices::RemoveEntity` (ECS.hpp lines 432-435): `SelectEntity`
throws on an unknown ID, otherwise the entity is erased. -/
def RemoveEntity {γ σ : Type} {nc ns : Nat} (s : State γ σ nc ns)
    (targetID : Nat) : Option EcsError × State γ σ nc ns :=
  match findKey targetID s.entities with
  | none => (some .invalidEntity, s)
  | some _ => (none, { s with entities := eraseKey targetID s.entities })

/-- `WithServices::InstallComponent` (ECS.hpp lines 441-455): resolve the
entity (`InvalidEntity` on an unknown ID), throw `AlreadyInstalled` if the
slot is non-absent, otherwise assign the value to the slot. -/
def InstallComponent {γ σ : Type} {nc ns : Nat} (s : State γ σ nc ns)
    (targetID : Nat) (i : Nat) (v : γ) : Option EcsError × State γ σ nc ns :=
  match findKey targetID s.entities with
  | none => (some .invalidEntity, s)
  | some row =>
    if (getSlot row i).isSome then
      (some .alreadyInstalled, s)
    else
      (none, { s with entities :=
        s.entities.map fun p => if p.1 = targetID then (p.1, setSlot row i (some v)) else p })

/-- `WithServices::UninstallComponent` (ECS.hpp lines 460-474): resolve the
entity, throw `AlreadyUninstalled` if the slot is absent, otherwise reset
the slot. -/
def UninstallComponent {γ σ : Type} {nc ns : Nat} (s : State γ σ nc ns)
    (targetID : Nat) (i : Nat) : Option EcsError × State γ σ nc ns :=
  match findKey targetID s.entities with
  | none => (some .invalidEntity, s)
  | some row =>
    if (getSlot row i).isSome then
      (none, { s with entities :=
        s.entities.map fun p => if p.1 = targetID then (p.1, setSlot row i none) else p })
    else
      (some .alreadyUninstalled, s)

/-- `WithServices::InstallService` (ECS.hpp lines 724-738): throw
`AlreadyInstalled` if the slot is non-absent, otherwise install (the
manager slot is not reachable here, mirroring the `AnyFrom` constraint). -/
def InstallService {γ σ : Type} {nc ns : Nat} (s : State γ σ nc ns)
    (i : Nat) (v : σ) : Option EcsError × State γ σ nc ns :=
  if (getSlot s.services.slots i).isSome then
    (some .alreadyInstalled, s)
  else
    (none, { s with services :=
      { s.services with slots := setSlot s.services.slots i (some v) } })

/-- `WithServices::UninstallService` (ECS.hpp lines 742-756): throw
`AlreadyUninstalled` if the slot is absent, otherwise reset it. -/
def UninstallService {γ σ : Type} {nc ns : Nat} (s : State γ σ nc ns)
    (i : Nat) : Option EcsError × State γ σ nc ns :=
  if (getSlot s.services.slots i).isSome then
    (none, { s with services :=
      { s.services with slots := setSlot s.services.slots i none } })
  else
    (some .alreadyUninstalled, s)

/-- `WithServices::AddSystem` (ECS.hpp lines 515-620): manufacture the two
validators and the consumer from the requested shape, store them under a
fresh system ID. -/
def AddSystem {γ σ : Type} {nc ns : Nat} (s : State γ σ nc ns)
    (reqC : List Nat) (reqS : List SvcRef) (b : Behavior γ σ) :
    Nat × State γ σ nc ns :=
  let targetID := s.nextSystemID
  (targetID,
   { s with systems := insertKey targetID (mkSystemWrapper reqC reqS b) s.systems,
            nextSystemID := targetID + 1 })

/-- `WithServices::RemoveSystem` (ECS.hpp lines 624-627): `SelectSystem`
throws `InvalidSystem` on an unknown ID, otherwise the system is erased. -/
def RemoveSystem {γ σ : Type} {nc ns : Nat} (s : State γ σ nc ns)
    (targetID : Nat) : Option EcsError × State γ σ nc ns :=
  match findKey targetID s.systems with
  | none => (some .invalidSystem, s)
  | some _ => (none, { s with systems := eraseKey targetID s.systems })

/-- `WithServices::AddServiceAction` (ECS.hpp lines 653-712). -/
def AddServiceAction {γ σ : Type} {nc ns : Nat} (s : State γ σ nc ns)
    (reqS : List SvcRef) (b : SABehavior σ) : Nat × State γ σ nc ns :=
  let targetID := s.nextServiceActionID
  (targetID,
   { s with serviceActions := insertKey targetID (mkSAWrapper reqS b) s.serviceActions,
            nextServiceActionID := targetID + 1 })

/-- Modelled from the doc comments of `SelectServiceAction` and
`RemoveServiceAction` (ECS.hpp lines 381-396 and 714-719): look the ID up
in the service-action registry, throw `InvalidServiceAction` ("Invalid
service action ID") when it is unknown, otherwise erase that registration.
As written, `SelectServiceAction` declares its parameter with type
`ServiceActionWrapper` instead of `ServiceActionID`, which makes
`RemoveServiceAction` un-instantiable; the parameter type is a slip, and
this definition follows the documented intent (a "Valid ID obtained via
AddServiceAction()"). -/
def RemoveServiceAction {γ σ : Type} {nc ns : Nat} (s : State γ σ nc ns)
    (targetID : Nat) : Option EcsError × State γ σ nc ns :=
  match findKey targetID s.serviceActions with
  | none => (some .invalidServiceAction, s)
  | some _ => (none, { s with serviceActions := eraseKey targetID s.serviceActions })

/-- `WithServices::RequestStop` lifted to the whole engine state. -/
def RequestStop {γ σ : Type} {nc ns : Nat} (s : State γ σ nc ns) :
    Bool × State γ σ nc ns :=
  let rc := requestStopCtrl s.ctrl
  (rc.1, { s with ctrl := rc.2 })

/-- `WithServices::Dispatch` (ECS.hpp lines 801-812): no precondition check
at all; move-assigning the new `std::jthread` into `_mainLoop` first
requests stop on and joins any existing worker, then the fresh worker (with
a fresh, unrequested stop token) runs the sweep loop.  The function never
throws, hence it is always `Except.ok`. -/
def Dispatch {γ σ : Type} {nc ns : Nat} (s : State γ σ nc ns) :
    Except EcsError (State γ σ nc ns) :=
  .ok { s with ctrl := { s.ctrl with dispatched := true, stopRequested := false } }

/-- The service-action phase of `Sweep` (ECS.hpp lines 761-765): for each
registered service action in registry order, if its validator accepts the
current service row, invoke its consumer immediately.  Returns the service
row, controller and the list of invocation events, or `none` if a consumer
accessed an empty optional. -/
def sweepSAs {σ : Type} :
    List (Nat × ServiceActionWrapper σ) → SRow σ → Ctrl →
    Option (SRow σ × Ctrl × List Event)
  | [], srow, ctrl => some (srow, ctrl, [])
  | (said, sa) :: rest, srow, ctrl =>
    if sa.validator srow then
      match sa.consumer srow ctrl with
      | none => none
      | some (srow1, ctrl1) =>
        match sweepSAs rest srow1 ctrl1 with
        | none => none
        | some (srow2, ctrl2, tr) => some (srow2, ctrl2, Event.saInvoked said :: tr)
    else
      sweepSAs rest srow ctrl

/-- The entity loop of one system inside `Sweep` (ECS.hpp lines 774-778):
for each entity in registry order, if the system's component validator
accepts the row, invoke the system on it. -/
def sweepEntities {γ σ : Type} (sysId : Nat) (w : SystemWrapper γ σ) :
    List (Nat × Row γ) → SRow σ → Ctrl →
    Option (List (Nat × Row γ) × SRow σ × Ctrl × List Event)
  | [], srow, ctrl => some ([], srow, ctrl, [])
  | (eid, row) :: rest, srow, ctrl =>
    if w.componentValidator row then
      match w.consumer row srow ctrl with
      | none => none
      | some (row1, srow1, ctrl1) =>
        match sweepEntities sysId w rest srow1 ctrl1 with
        | none => none
        | some (ents2, srow2, ctrl2, tr) =>
          some ((eid, row1) :: ents2, srow2, ctrl2, Event.sysInvoked sysId eid :: tr)
    else
      match sweepEntities sysId w rest srow ctrl with
      | none => none
      | some (ents2, srow2, ctrl2, tr) =>
        some ((eid, row) :: ents2, srow2, ctrl2, tr)

/-- The system phase of `Sweep` (ECS.hpp lines 768-780): for each registered
system in registry order, evaluate its service validator against the
current service row; if it fails, skip the system, otherwise run its entity
loop. -/
def sweepSystems {γ σ : Type} :
    List (Nat × SystemWrapper γ σ) → List (Nat × Row γ) → SRow σ → Ctrl →
    Option (List (Nat × Row γ) × SRow σ × Ctrl × List Event)
  | [], ents, srow, ctrl => some (ents, srow, ctrl, [])
  | (sysId, w) :: rest, ents, srow, ctrl =>
    if w.serviceValidator srow then
      match sweepEntities sysId w ents srow ctrl with
      | none => none
      | some (ents1, srow1, ctrl1, tr1) =>
        match sweepSystems rest ents1 srow1 ctrl1 with
        | none => none
        | some (ents2, srow2, ctrl2, tr2) => some (ents2, srow2, ctrl2, tr1 ++ tr2)
    else
      sweepSystems rest ents srow ctrl

/-- `WithServices::Sweep` (ECS.hpp lines 758-783): one full evaluation pass,
service actions first, then systems over entities.  The result also carries
the trace of invocations; `none` marks an access to an empty optional. -/
def Sweep {γ σ : Type} {nc ns : Nat} (s : State γ σ nc ns) :
    Option (State γ σ nc ns × List Event) :=
  match sweepSAs s.serviceActions s.services s.ctrl with
  | none => none
  | some (srow1, ctrl1, tr1) =>
    match sweepSystems s.systems s.entities srow1 ctrl1 with
    | none => none
    | some (ents2, srow2, ctrl2, tr2) =>
      some ({ s with entities := ents2, services := srow2, ctrl := ctrl2 }, tr1 ++ tr2)

/-- The `while (_localContinue) Sweep();` loop of `Run` (ECS.hpp lines
793-796), with fuel; returns the state at loop exit together with the trace
of each completed sweep (`none` on fuel exhaustion or on an empty-optional
access inside a sweep). -/
def RunLoop {γ σ : Type} {nc ns : Nat} :
    Nat → State γ σ nc ns → Option (State γ σ nc ns × List (List Event))
  | 0, _ => none
  | fuel + 1, s =>
    if s.ctrl.localContinue then
      match Sweep s with
      | none => none
      | some (s1, tr) =>
        match RunLoop fuel s1 with
        | none => none
        | some (s2, trs) => some (s2, tr :: trs)
    else
      some (s, [])

/-- `WithServices::Run` (ECS.hpp lines 787-797): throw if `_mainLoop` is
joinable ("ECS is already running in the dispatched thread"), otherwise set
`_localContinue` and sweep until it is observed false. -/
def Run {γ σ : Type} {nc ns : Nat} (fuel : Nat) (s : State γ σ nc ns) :
    Except EcsError (Option (State γ σ nc ns × List (List Event))) :=
  if s.ctrl.dispatched then
    .error .alreadyDispatched
  else
    .ok (RunLoop fuel { s with ctrl := { s.ctrl with localContinue := true } })

/-- A system wrapper is one actually manufactured by `AddSystem`. -/
def SystemWrapper.Registered {γ σ : Type} (w : SystemWrapper γ σ) : Prop :=
  ∃ reqC reqS b, w = mkSystemWrapper reqC reqS b

/-- A service-action wrapper is one actually manufactured by
`AddServiceAction`. -/
def ServiceActionWrapper.Registered {σ : Type} (a : ServiceActionWrapper σ) : Prop :=
  ∃ reqS b, a = mkSAWrapper reqS b

/-- Every behaviour unit stored in the engine came from its registration
function (the only way the C++ interface ever populates the registries). -/
def State.Registered {γ σ : Type} {nc ns : Nat} (s : State γ σ nc ns) : Prop :=
  (∀ p ∈ s.systems, p.2.Registered) ∧ (∀ p ∈ s.serviceActions, p.2.Registered)

/-- The sweep trace as the specification describes it: every registered
service action whose validator accepts the service row, in registry order,
followed by, for each registered system in registry order whose service
validator accepts the service row, the entities in registry order whose
rows its component validator accepts. -/
def specSweepTrace {γ σ : Type} {nc ns : Nat} (s : State γ σ nc ns) : List Event :=
  (s.serviceActions.filter fun a => a.2.validator s.services).map
      (fun a => Event.saInvoked a.1)
    ++ (s.systems.filter fun p => p.2.serviceValidator s.services).flatMap
      (fun p => (s.entities.filter fun e => p.2.componentValidator e.2).map
        (fun e => Event.sysInvoked p.1 e.1))

/-- The strict order the specification imposes on sweep events: service
actions (ascending registration ID) strictly before systems; system
invocations ordered by registration ID and, within one system, by entity
ID. -/
def eventLt : Event → Event → Prop
  | .saInvoked i, .saInvoked j => i < j
  | .saInvoked _, .sysInvoked _ _ => True
  | .sysInvoked _ _, .saInvoked _ => False
  | .sysInvoked i e, .sysInvoked j f => i < j ∨ (i = j ∧ e < f)

/-- `Run`'s loop viewed as a relation: starting from a state whose local
flag is set, perform complete sweeps (each recorded with its full trace)
until the flag is observed false; the loop exits only at a sweep
boundary. -/
inductive SweepChain {γ σ : Type} {nc ns : Nat} :
    State γ σ nc ns → List (List Event) → State γ σ nc ns → Prop
  | done (s : State γ σ nc ns) :
      s.ctrl.localContinue = false → SweepChain s [] s
  | step (s s1 s2 : State γ σ nc ns) (tr : List Event) (trs : List (List Event)) :
      s.ctrl.localContinue = true → Sweep s = some (s1, tr) →
      SweepChain s1 trs s2 → SweepChain s (tr :: trs) s2

/-! Concrete evaluation points (over `γ = σ = Nat`, two component slots and
two service slots). -/

/-- A freshly constructed engine, nothing running. -/
def idleState : State Nat Nat 2 2 := initState Nat Nat 2 2

/-- The engine after `Dispatch()`: a worker exists, no stop requested. -/
def dispatchedState : State Nat Nat 2 2 :=
  { idleState with ctrl :=
    { dispatched := true, stopRequested := false, localContinue := false } }

/-- A row with component slot 0 present and slot 1 absent. -/
def presentRow : Row Nat := [some 5, none]

/-- An engine holding one entity with `presentRow` and service slot 0
installed, slot 1 absent. -/
def presentState : State Nat Nat 2 2 :=
  { idleState with
    entities := [(0, presentRow)],
    services := { manager := some (), slots := [some 3, none] } }

/-- A behaviour function that keeps all values and does not request stop. -/
def trivB : Behavior Nat Nat := ⟨fun cs ss => (cs, ss, false)⟩

/-- A service-action behaviour that keeps all values and does not request
stop. -/
def trivSA : SABehavior Nat := ⟨fun ss => (ss, false)⟩

/-- An engine with a single registered service action (ID 0, no
requirements). -/
def saState : State Nat Nat 2 2 :=
  { idleState with serviceActions := [(0, mkSAWrapper [] trivSA)] }

/-! Claim C1. -/

/-- Claim C1 counterexample: the claim says `RequestStop()` with nothing
running returns `false`; on the freshly constructed engine (no mode
active) the code clears `_localContinue` and returns `true`. -/
theorem requestStop_idle_returns_true_cex :
    (RequestStop idleState).1 = true := rfl

/-- Claim C1 (amended): `RequestStop()` returns `true` in every state except
when a dispatched worker exists on which stop was already requested; in
particular it returns `true`, not `false`, when nothing is running.  When a
worker exists it requests stop on it, otherwise it clears the local run
flag. -/
theorem requestStop_characterization {γ σ : Type} {nc ns : Nat}
    (s : State γ σ nc ns) :
    (RequestStop s).1 = !(s.ctrl.dispatched && s.ctrl.stopRequested) ∧
    (RequestStop s).2 = { s with ctrl :=
      if s.ctrl.dispatched then { s.ctrl with stopRequested := true }
      else { s.ctrl with localContinue := false } } := by
  unfold RequestStop requestStopCtrl
  by_cases h : s.ctrl.dispatched <;> simp [h]

/-! Claim C2. -/

/-- Claim C2 counterexample: the claim says `Dispatch()` while a worker is
active fails with `AlreadyDispatched` and spawns no new worker; on a
dispatched engine the code succeeds and a (fresh) worker is active
afterwards. -/
theorem dispatch_while_dispatched_ok_cex :
    Dispatch dispatchedState = Except.ok dispatchedState := rfl

/-- Claim C2 (amended): `Dispatch()` never fails: with no precondition check
it move-assigns a fresh worker into `_mainLoop`, which first requests stop
on and joins any worker already active, then leaves the new worker (with an
unrequested stop token) running. -/
theorem dispatch_always_ok {γ σ : Type} {nc ns : Nat} (s : State γ σ nc ns) :
    Dispatch s = Except.ok
      { s with ctrl := { s.ctrl with dispatched := true, stopRequested := false } } := rfl

/-! Claim C4. -/

/-- Claim C4: on an entity resolved by its ID, `InstallComponent` on a
non-absent slot fails with `AlreadyInstalled` and `UninstallComponent` on
an absent slot fails with `AlreadyUninstalled`; the same pair of laws holds
for `InstallService`/`UninstallService` on a declared service slot; in each
failing case the whole engine state (in particular the slot) is
unchanged. -/
theorem install_uninstall_double_transition {γ σ : Type} {nc ns : Nat}
    (s : State γ σ nc ns) (targetID i : Nat) (v : γ) (w : σ) :
    (∀ row, findKey targetID s.entities = some row →
      ((getSlot row i).isSome = true →
        InstallComponent s targetID i v = (some .alreadyInstalled, s)) ∧
      (getSlot row i = none →
        UninstallComponent s targetID i = (some .alreadyUninstalled, s))) ∧
    ((getSlot s.services.slots i).isSome = true →
      InstallService s i w = (some .alreadyInstalled, s)) ∧
    (getSlot s.services.slots i = none →
      UninstallService s i = (some .alreadyUninstalled, s)) := by
  refine ⟨fun row hrow => ⟨fun hsome => ?_, fun hnone => ?_⟩,
    fun hsome => ?_, fun hnone => ?_⟩
  · simp [InstallComponent, hrow, hsome]
  · simp [UninstallComponent, hrow, hnone]
  · simp [InstallService, hsome]
  · simp [UninstallService, hnone]

/-- Claim C4 witness: on `presentState`, all four failing transitions occur
and leave the state unchanged. -/
theorem install_uninstall_double_transition_witness :
    InstallComponent presentState 0 0 7 = (some .alreadyInstalled, presentState) ∧
    UninstallComponent presentState 0 1 = (some .alreadyUninstalled, presentState) ∧
    InstallService presentState 0 9 = (some .alreadyInstalled, presentState) ∧
    UninstallService presentState 1 = (some .alreadyUninstalled, presentState) := by
  have h0 := install_uninstall_double_transition presentState 0 0 7 9
  have h1 := install_uninstall_double_transition presentState 0 1 7 9
  exact ⟨(h0.1 presentRow rfl).1 rfl, (h1.1 presentRow rfl).2 rfl,
         h0.2.1 rfl, h1.2.2 rfl⟩

/-! Claim C6. -/

/-- Claim C6: the pair of validators manufactured by `AddSystem` accepts an
entity row and the engine's service row exactly when every requested
component slot is non-absent in the row and every requested service slot
(the manager included, if requested) is non-absent. -/
theorem addSystem_validator_iff {γ σ : Type} (reqC : List Nat)
    (reqS : List SvcRef) (b : Behavior γ σ) (row : Row γ) (srow : SRow σ) :
    ((mkSystemWrapper reqC reqS b).componentValidator row &&
     (mkSystemWrapper reqC reqS b).serviceValidator srow) = true ↔
      ((∀ i ∈ reqC, (getSlot row i).isSome = true) ∧
       (∀ r ∈ reqS, svcPresent srow r = true)) := by
  simp [mkSystemWrapper, componentValidator, serviceValidator,
    List.all_eq_true, Bool.and_eq_true]

/-- Claim C6 witness: a system requesting component 0, the manager and
service 0 validates on `presentState`'s row and services. -/
theorem addSystem_validator_iff_witness :
    ((mkSystemWrapper [0] [SvcRef.manager, SvcRef.svc 0] trivB).componentValidator
        presentRow &&
     (mkSystemWrapper [0] [SvcRef.manager, SvcRef.svc 0] trivB).serviceValidator
        presentState.services) = true :=
  (addSystem_validator_iff [0] [SvcRef.manager, SvcRef.svc 0] trivB presentRow
    presentState.services).mpr (by decide)

/-! Claim C7. -/

/-- `findKey` misses every list whose keys avoid `k`. -/
theorem findKey_eq_none_of_not_mem {α : Type} (k : Nat) (l : List (Nat × α))
    (h : k ∉ l.map Prod.fst) : findKey k l = none := by
  induction l with
  | nil => rfl
  | cons p rest ih =>
    simp only [List.map_cons, List.mem_cons] at h
    push_neg at h
    have hpk : ¬ p.1 = k := fun he => h.1 he.symm
    simp [findKey, hpk, ih h.2]

/-- `eraseKey` leaves lookups of other keys unchanged. -/
theorem findKey_eraseKey_ne {α : Type} (k t : Nat) (l : List (Nat × α))
    (h : k ≠ t) : findKey k (eraseKey t l) = findKey k l := by
  induction l with
  | nil => rfl
  | cons p rest ih =>
    by_cases hpt : p.1 = t
    · have hpk : ¬ p.1 = k := fun hk => h (hk ▸ hpt.symm ▸ rfl)
      have htk : ¬ t = k := fun he => h he.symm
      simp [eraseKey, findKey, hpt, hpk, htk]
    · simp [eraseKey, findKey, hpt, ih]

/-- With unique keys, `eraseKey` removes the key from lookup entirely. -/
theorem findKey_eraseKey_self {α : Type} (t : Nat) (l : List (Nat × α))
    (h : (l.map Prod.fst).Nodup) : findKey t (eraseKey t l) = none := by
  induction l with
  | nil => rfl
  | cons p rest ih =>
    simp only [List.map_cons, List.nodup_cons] at h
    by_cases hpt : p.1 = t
    · simpa [eraseKey, hpt] using
        findKey_eq_none_of_not_mem t rest (hpt ▸ h.1)
    · simp [eraseKey, findKey, hpt, ih h.2]

/-- Claim C7 (proved against the documented intent of the un-instantiable
code): `RemoveServiceAction` on an ID absent from the registry fails with
`InvalidServiceAction` and changes nothing; on a present ID it succeeds and
removes exactly that registration (that ID no longer resolves, every other
ID resolves as before). -/
theorem removeServiceAction_laws {γ σ : Type} {nc ns : Nat}
    (s : State γ σ nc ns) (targetID : Nat) :
    (findKey targetID s.serviceActions = none →
      RemoveServiceAction s targetID = (some .invalidServiceAction, s)) ∧
    (∀ w, findKey targetID s.serviceActions = some w →
      (RemoveServiceAction s targetID).1 = none ∧
      (RemoveServiceAction s targetID).2.serviceActions
        = eraseKey targetID s.serviceActions ∧
      (∀ k, k ≠ targetID →
        findKey k (RemoveServiceAction s targetID).2.serviceActions
          = findKey k s.serviceActions) ∧
      ((s.serviceActions.map Prod.fst).Nodup →
        findKey targetID (RemoveServiceAction s targetID).2.serviceActions
          = none)) := by
  constructor
  · intro hnone
    simp [RemoveServiceAction, hnone]
  · intro w hsome
    refine ⟨by simp [RemoveServiceAction, hsome], by simp [RemoveServiceAction, hsome],
      fun k hk => ?_, fun hnd => ?_⟩
    · simp only [RemoveServiceAction, hsome]
      exact findKey_eraseKey_ne k targetID _ hk
    · simp only [RemoveServiceAction, hsome]
      exact findKey_eraseKey_self targetID _ hnd

/-- Claim C7 witness: on an engine with the single service action 0, an
unknown ID fails with `InvalidServiceAction`, and removing ID 0 succeeds
and removes it. -/
theorem removeServiceAction_laws_witness :
    RemoveServiceAction saState 5 = (some .invalidServiceAction, saState) ∧
    (RemoveServiceAction saState 0).1 = none ∧
    findKey 0 (RemoveServiceAction saState 0).2.serviceActions = none := by
  have h5 := removeServiceAction_laws saState 5
  have h0 := removeServiceAction_laws saState 0
  exact ⟨h5.1 rfl, (h0.2 _ rfl).1, (h0.2 _ rfl).2.2.2 (by decide)⟩

/-! Claim C8. -/

/-- `setSlot` preserves the row's width. -/
theorem setSlot_length {α : Type} (l : List (Option α)) (i : Nat) (v : Option α) :
    (setSlot l i v).length = l.length := by
  induction l generalizing i with
  | nil => rfl
  | cons x xs ih => cases i <;> simp [setSlot, ih]

/-- Reading back the slot just written (in range). -/
theorem getSlot_setSlot_self {α : Type} (l : List (Option α)) (i : Nat)
    (v : Option α) (h : i < l.length) : getSlot (setSlot l i v) i = v := by
  induction l generalizing i with
  | nil => exact absurd h (Nat.not_lt_zero i)
  | cons x xs ih =>
    cases i with
    | zero => rfl
    | succ n => exact ih n (Nat.lt_of_succ_lt_succ h)

/-- Writing one slot does not move any other slot. -/
theorem getSlot_setSlot_ne {α : Type} (l : List (Option α)) (i j : Nat)
    (v : Option α) (h : i ≠ j) : getSlot (setSlot l i v) j = getSlot l j := by
  induction l generalizing i j with
  | nil => rfl
  | cons x xs ih =>
    cases i with
    | zero =>
      cases j with
      | zero => exact absurd rfl h
      | succ m => rfl
    | succ n =>
      cases j with
      | zero => rfl
      | succ m => exact ih n m (fun he => h (he ▸ rfl))

/-- Every slot of the default-initialised row is absent. -/
theorem getSlot_replicate_none {α : Type} (n i : Nat) :
    getSlot (List.replicate n (none : Option α)) i = none := by
  induction n generalizing i with
  | zero => rfl
  | succ m ih => cases i <;> simp [List.replicate, getSlot, ih]

/-- The assignment fold preserves the row's width. -/
theorem assignInits_length {γ : Type} (inits : List (Nat × γ)) (r : Row γ) :
    (assignInits inits r).length = r.length := by
  induction inits generalizing r with
  | nil => rfl
  | cons q rest ih => simp [assignInits, ih, setSlot_length]

/-- Slots whose index is not among the passed initial values are left as in
the starting row. -/
theorem getSlot_assignInits_not_mem {γ : Type} (inits : List (Nat × γ))
    (r : Row γ) (j : Nat) (h : j ∉ inits.map Prod.fst) :
    getSlot (assignInits inits r) j = getSlot r j := by
  induction inits generalizing r with
  | nil => rfl
  | cons q rest ih =>
    simp only [List.map_cons, List.mem_cons] at h
    push_neg at h
    rw [assignInits, ih _ h.2, getSlot_setSlot_ne _ _ _ _ (fun he => h.1 he.symm)]

/-- Each passed initial value ends up in its slot (indices distinct and in
range, as the `requires`-clauses of `AddEntity` demand). -/
theorem getSlot_assignInits_mem {γ : Type} (inits : List (Nat × γ))
    (r : Row γ) (p : Nat × γ) (hmem : p ∈ inits)
    (hnd : (inits.map Prod.fst).Nodup) (hlt : p.1 < r.length) :
    getSlot (assignInits inits r) p.1 = some p.2 := by
  induction inits generalizing r with
  | nil => exact absurd hmem (List.not_mem_nil p)
  | cons q rest ih =>
    simp only [List.map_cons, List.nodup_cons] at hnd
    rcases List.mem_cons.mp hmem with hq | hrest
    · subst hq
      rw [assignInits, getSlot_assignInits_not_mem rest _ _ hnd.1,
        getSlot_setSlot_self _ _ _ hlt]
    · rw [assignInits]
      exact ih _ hrest hnd.2 (by simpa [setSlot_length] using hlt)

/-- A fresh key resolves to the value just emplaced. -/
theorem findKey_insertKey_self {α : Type} (k : Nat) (v : α)
    (l : List (Nat × α)) (h : findKey k l = none) :
    findKey k (insertKey k v l) = some v := by
  induction l with
  | nil => simp [insertKey, findKey]
  | cons p rest ih =>
    by_cases hlt : k < p.1
    · simp [insertKey, findKey, hlt]
    · by_cases heq : k = p.1
      · rw [findKey, if_pos heq.symm] at h
        exact absurd h (by simp)
      · have hpk : ¬ p.1 = k := fun he => heq he.symm
        rw [findKey, if_neg hpk] at h
        simp [insertKey, findKey, hlt, heq, hpk, ih h]

/-- Claim C8: `AddEntity` yields a new entity whose row holds exactly the
passed initial values in their slots, every unspecified slot absent; with
no initial values every slot is absent (third conjunct with no specified
indices). -/
theorem addEntity_row_contents {γ σ : Type} {nc ns : Nat}
    (s : State γ σ nc ns) (inits : List (Nat × γ))
    (hnd : (inits.map Prod.fst).Nodup)
    (hrange : ∀ p ∈ inits, p.1 < nc)
    (hfresh : findKey s.nextEntityID s.entities = none) :
    findKey (AddEntity s inits).1 (AddEntity s inits).2.entities
      = some (assignInits inits (List.replicate nc none)) ∧
    (∀ p ∈ inits, getSlot (assignInits inits (List.replicate nc none)) p.1
      = some p.2) ∧
    (∀ j, j ∉ inits.map Prod.fst →
      getSlot (assignInits inits (List.replicate nc none)) j = none) := by
  refine ⟨findKey_insertKey_self _ _ _ hfresh, fun p hp => ?_, fun j hj => ?_⟩
  · exact getSlot_assignInits_mem inits _ p hp hnd
      (by simpa [List.length_replicate] using hrange p hp)
  · rw [getSlot_assignInits_not_mem inits _ j hj, getSlot_replicate_none]

/-- Claim C8 witness: adding an entity to the fresh engine with initial
value 42 for component type 1 yields entity 0 with slot 1 holding 42 and
slot 0 absent. -/
theorem addEntity_row_contents_witness :
    findKey 0 (AddEntity idleState [(1, 42)]).2.entities = some [none, some 42] ∧
    getSlot (assignInits [(1, (42 : Nat))] (List.replicate 2 none)) 1 = some 42 ∧
    getSlot (assignInits [(1, (42 : Nat))] (List.replicate 2 none)) 0 = none := by
  have h := addEntity_row_contents idleState [(1, 42)] (by decide) (by decide) rfl
  exact ⟨h.1, h.2.1 (1, 42) (by decide), h.2.2 0 (by decide)⟩

/-! Presence machinery: during one sweep a behaviour function can replace
slot values through its references but can never change which slots are
present, so all validator outcomes are fixed by the initial presence
pattern.  This section proves exactly that. -/

/-- Two entity rows with the same presence pattern. -/
def RowPresEq {γ : Type} (a b : Row γ) : Prop :=
  ∀ i, (getSlot a i).isSome = (getSlot b i).isSome

/-- Two service rows with the same presence pattern. -/
def SRowPresEq {σ : Type} (a b : SRow σ) : Prop :=
  a.manager.isSome = b.manager.isSome ∧
  ∀ i, (getSlot a.slots i).isSome = (getSlot b.slots i).isSome

theorem rowPresEq_refl {γ : Type} (a : Row γ) : RowPresEq a a :=
  fun _ => rfl

theorem rowPresEq_trans {γ : Type} {a b c : Row γ}
    (h1 : RowPresEq a b) (h2 : RowPresEq b c) : RowPresEq a c :=
  fun i => (h1 i).trans (h2 i)

theorem srowPresEq_refl {σ : Type} (a : SRow σ) : SRowPresEq a a :=
  ⟨rfl, fun _ => rfl⟩

theorem srowPresEq_trans {σ : Type} {a b c : SRow σ}
    (h1 : SRowPresEq a b) (h2 : SRowPresEq b c) : SRowPresEq a c :=
  ⟨h1.1.trans h2.1, fun i => (h1.2 i).trans (h2.2 i)⟩

/-- `List.all` only looks at the predicate's values on the list. -/
theorem all_congr {α : Type} (l : List α) (p q : α → Bool)
    (h : ∀ x ∈ l, p x = q x) : l.all p = l.all q := by
  induction l with
  | nil => rfl
  | cons x xs ih =>
    simp only [List.all_cons, h x (by simp)]
    rw [ih fun y hy => h y (by simp [hy])]

/-- A requested slot's presence only depends on the presence pattern. -/
theorem svcPresent_congr {σ : Type} {a b : SRow σ} (h : SRowPresEq a b)
    (r : SvcRef) : svcPresent a r = svcPresent b r := by
  cases r with
  | manager => exact h.1
  | svc i => exact h.2 i

/-- The manufactured component validator only depends on the presence
pattern. -/
theorem componentValidator_congr {γ : Type} (reqC : List Nat) {a b : Row γ}
    (h : RowPresEq a b) :
    componentValidator reqC a = componentValidator reqC b :=
  all_congr reqC _ _ fun i _ => h i

/-- The manufactured service validator only depends on the presence
pattern. -/
theorem serviceValidator_congr {σ : Type} (reqS : List SvcRef) {a b : SRow σ}
    (h : SRowPresEq a b) :
    serviceValidator reqS a = serviceValidator reqS b :=
  all_congr reqS _ _ fun r _ => svcPresent_congr h r

/-- A slot that holds a value lies inside the row. -/
theorem lt_length_of_getSlot_isSome {α : Type} (l : List (Option α)) (i : Nat)
    (h : (getSlot l i).isSome = true) : i < l.length := by
  induction l generalizing i with
  | nil => simp [getSlot] at h
  | cons x xs ih =>
    cases i with
    | zero => simp
    | succ n => exact Nat.succ_lt_succ (ih n h)

/-- Component extraction succeeds exactly when the component validator
accepts: `.value()` is taken precisely of the slots the validator just
checked. -/
theorem extractComps_isSome {γ : Type} (reqC : List Nat) (row : Row γ) :
    (extractComps reqC row).isSome = componentValidator reqC row := by
  induction reqC with
  | nil => rfl
  | cons i is ih =>
    simp only [extractComps, componentValidator, List.all_cons] at *
    cases hg : getSlot row i <;> cases he : extractComps is row <;>
      simp_all

/-- Service extraction succeeds exactly when the service validator
accepts. -/
theorem extractSvcs_isSome {σ : Type} (reqS : List SvcRef) (srow : SRow σ) :
    (extractSvcs reqS srow).isSome = serviceValidator reqS srow := by
  induction reqS with
  | nil => rfl
  | cons r rs ih =>
    cases r with
    | manager =>
      simp only [extractSvcs, serviceValidator, List.all_cons, svcPresent] at *
      cases hm : srow.manager <;> cases he : extractSvcs rs srow <;> simp_all
    | svc i =>
      simp only [extractSvcs, serviceValidator, List.all_cons, svcPresent] at *
      cases hg : getSlot srow.slots i <;> cases he : extractSvcs rs srow <;> simp_all

/-- Writing values back through the component references preserves the
presence pattern (every written slot already held a value). -/
theorem writeBackComps_presEq {γ : Type} (reqC : List Nat) (vals : List γ)
    (row : Row γ) (h : ∀ i ∈ reqC, (getSlot row i).isSome = true) :
    RowPresEq (writeBackComps reqC vals row) row := by
  induction reqC generalizing vals row with
  | nil => exact fun _ => rfl
  | cons i is ih =>
    cases vals with
    | nil => exact fun _ => rfl
    | cons v vs =>
      have hi : (getSlot row i).isSome = true := h i (by simp)
      have hset : RowPresEq (setSlot row i (some v)) row := by
        intro k
        by_cases hk : i = k
        · subst hk
          rw [getSlot_setSlot_self _ _ _ (lt_length_of_getSlot_isSome _ _ hi), hi]
          rfl
        · rw [getSlot_setSlot_ne _ _ _ _ hk]
      have hrest : ∀ j ∈ is, (getSlot (setSlot row i (some v)) j).isSome = true :=
        fun j hj => (hset j).trans (h j (by simp [hj]))
      exact rowPresEq_trans (ih vs _ hrest) hset

/-- Writing values back through the service references preserves the
presence pattern of the service row (manager writes are no-ops, declared
slots written already held a value). -/
theorem writeBackSvcs_presEq {σ : Type} (reqS : List SvcRef)
    (vals : List (SvcVal σ)) (sr : SRow σ)
    (h : ∀ r ∈ reqS, svcPresent sr r = true) :
    SRowPresEq (writeBackSvcs reqS vals sr) sr := by
  induction reqS generalizing vals sr with
  | nil => exact srowPresEq_refl sr
  | cons r rs ih =>
    cases vals with
    | nil => cases r <;> exact srowPresEq_refl sr
    | cons v vs =>
      cases r with
      | manager =>
        exact ih vs sr fun q hq => h q (by simp [hq])
      | svc i =>
        cases v with
        | inl u =>
          exact ih vs sr fun q hq => h q (by simp [hq])
        | inr w =>
          have hi : (getSlot sr.slots i).isSome = true := h (.svc i) (by simp)
          have hset : SRowPresEq { sr with slots := setSlot sr.slots i (some w) } sr := by
            refine ⟨rfl, fun k => ?_⟩
            by_cases hk : i = k
            · subst hk
              simp only
              rw [getSlot_setSlot_self _ _ _ (lt_length_of_getSlot_isSome _ _ hi), hi]
              rfl
            · simp only
              rw [getSlot_setSlot_ne _ _ _ _ hk]
          have hrest : ∀ q ∈ rs, svcPresent { sr with slots := setSlot sr.slots i (some w) } q = true :=
            fun q hq => (svcPresent_congr hset q).trans (h q (by simp [hq]))
          exact srowPresEq_trans (ih vs _ hrest) hset

/-- The consumer manufactured by `AddSystem` returns a value exactly when
both manufactured validators accept. -/
theorem mkConsumer_isSome {γ σ : Type} (reqC : List Nat) (reqS : List SvcRef)
    (b : Behavior γ σ) (row : Row γ) (srow : SRow σ) (ctrl : Ctrl) :
    (mkConsumer reqC reqS b row srow ctrl).isSome =
      (componentValidator reqC row && serviceValidator reqS srow) := by
  unfold mkConsumer
  cases hc : extractComps reqC row <;> cases hs : extractSvcs reqS srow <;>
    simp [← extractComps_isSome, ← extractSvcs_isSome, hc, hs]

/-- A successful run of the manufactured system consumer preserves both
presence patterns. -/
theorem mkConsumer_presEq {γ σ : Type} {reqC : List Nat} {reqS : List SvcRef}
    {b : Behavior γ σ} {row : Row γ} {srow : SRow σ} {ctrl : Ctrl}
    {row2 : Row γ} {srow2 : SRow σ} {ctrl2 : Ctrl}
    (h : mkConsumer reqC reqS b row srow ctrl = some (row2, srow2, ctrl2)) :
    RowPresEq row2 row ∧ SRowPresEq srow2 srow := by
  unfold mkConsumer at h
  cases hc : extractComps reqC row with
  | none => rw [hc] at h; simp at h
  | some cvals =>
    cases hs : extractSvcs reqS srow with
    | none => rw [hc, hs] at h; simp at h
    | some svals =>
      rw [hc, hs] at h
      simp only [Option.some.injEq, Prod.mk.injEq] at h
      obtain ⟨h1, h2, h3⟩ := h
      have hcv : componentValidator reqC row = true := by
        rw [← extractComps_isSome, hc]; rfl
      have hsv : serviceValidator reqS srow = true := by
        rw [← extractSvcs_isSome, hs]; rfl
      constructor
      · rw [← h1]
        exact writeBackComps_presEq _ _ _ (List.all_eq_true.mp hcv)
      · rw [← h2]
        exact writeBackSvcs_presEq _ _ _ (List.all_eq_true.mp hsv)

/-- The consumer manufactured by `AddServiceAction` returns a value exactly
when the manufactured validator accepts. -/
theorem mkSAConsumer_isSome {σ : Type} (reqS : List SvcRef) (b : SABehavior σ)
    (srow : SRow σ) (ctrl : Ctrl) :
    (mkSAConsumer reqS b srow ctrl).isSome = serviceValidator reqS srow := by
  unfold mkSAConsumer
  cases hs : extractSvcs reqS srow <;>
    simp [← extractSvcs_isSome, hs]

/-- A successful run of the manufactured service-action consumer preserves
the service row's presence pattern. -/
theorem mkSAConsumer_presEq {σ : Type} {reqS : List SvcRef} {b : SABehavior σ}
    {srow : SRow σ} {ctrl : Ctrl} {srow2 : SRow σ} {ctrl2 : Ctrl}
    (h : mkSAConsumer reqS b srow ctrl = some (srow2, ctrl2)) :
    SRowPresEq srow2 srow := by
  unfold mkSAConsumer at h
  cases hs : extractSvcs reqS srow with
  | none => rw [hs] at h; simp at h
  | some svals =>
    rw [hs] at h
    simp only [Option.some.injEq, Prod.mk.injEq] at h
    obtain ⟨h1, h2⟩ := h
    have hsv : serviceValidator reqS srow = true := by
      rw [← extractSvcs_isSome, hs]; rfl
    rw [← h1]
    exact writeBackSvcs_presEq _ _ _ (List.all_eq_true.mp hsv)

/-- `List.flatMap` only looks at the function's values on the list. -/
theorem flatMap_congr {α β : Type} (l : List α) (f g : α → List β)
    (h : ∀ x ∈ l, f x = g x) : l.flatMap f = l.flatMap g := by
  induction l with
  | nil => rfl
  | cons x xs ih =>
    rw [List.flatMap_cons, List.flatMap_cons, h x (by simp),
      ih fun y hy => h y (by simp [hy])]

/-- The presence-pattern relation on entity registries is reflexive. -/
theorem forall2_presEq_refl {γ : Type} (ents : List (Nat × Row γ)) :
    List.Forall₂ (fun x y => x.1 = y.1 ∧ RowPresEq x.2 y.2) ents ents := by
  induction ents with
  | nil => exact List.Forall₂.nil
  | cons e rest ih => exact List.Forall₂.cons ⟨rfl, rowPresEq_refl e.2⟩ ih

/-- The presence-pattern relation on entity registries is transitive. -/
theorem forall2_presEq_trans {γ : Type} {a b c : List (Nat × Row γ)}
    (h1 : List.Forall₂ (fun x y => x.1 = y.1 ∧ RowPresEq x.2 y.2) a b)
    (h2 : List.Forall₂ (fun x y => x.1 = y.1 ∧ RowPresEq x.2 y.2) b c) :
    List.Forall₂ (fun x y => x.1 = y.1 ∧ RowPresEq x.2 y.2) a c := by
  induction h1 generalizing c with
  | nil => cases h2; exact List.Forall₂.nil
  | cons hxy hrest ih =>
    cases h2 with
    | cons hyz hrest2 =>
      exact List.Forall₂.cons ⟨hxy.1.trans hyz.1, rowPresEq_trans hxy.2 hyz.2⟩ (ih hrest2)

/-- Filtering entities by a manufactured component validator and reading
off their IDs gives the same result on presence-equivalent registries. -/
theorem filter_map_ents_congr {γ : Type} (reqC : List Nat) (g : Nat → Event)
    {ents1 ents : List (Nat × Row γ)}
    (h : List.Forall₂ (fun x y => x.1 = y.1 ∧ RowPresEq x.2 y.2) ents1 ents) :
    (ents1.filter fun e => componentValidator reqC e.2).map (fun e => g e.1)
      = (ents.filter fun e => componentValidator reqC e.2).map fun e => g e.1 := by
  induction h with
  | nil => rfl
  | cons hxy hrest ih =>
    rename_i x y l1 l2
    obtain ⟨hid, hpres⟩ := hxy
    rw [List.filter_cons, List.filter_cons, componentValidator_congr reqC hpres]
    by_cases hc : componentValidator reqC y.2 = true
    · simp [hc, hid, ih]
    · simp [hc, ih]

/-- The service-action phase delivers exactly the service actions whose
validator accepts the incoming service row, in registry order, and
preserves the service row's presence pattern. -/
theorem sweepSAs_spec {σ : Type} (l : List (Nat × ServiceActionWrapper σ))
    (srow : SRow σ) (ctrl : Ctrl) (hreg : ∀ p ∈ l, p.2.Registered) :
    ∃ srow2 ctrl2,
      sweepSAs l srow ctrl = some (srow2, ctrl2,
        (l.filter fun a => a.2.validator srow).map fun a => Event.saInvoked a.1) ∧
      SRowPresEq srow2 srow := by
  induction l generalizing srow ctrl with
  | nil => exact ⟨srow, ctrl, rfl, srowPresEq_refl srow⟩
  | cons p rest ih =>
    obtain ⟨said, sa⟩ := p
    obtain ⟨reqS, b, hw⟩ := hreg (said, sa) (by simp)
    replace hw : sa = mkSAWrapper reqS b := hw
    by_cases hv : sa.validator srow = true
    · have hcons_some : (sa.consumer srow ctrl).isSome = true := by
        rw [hw] at hv ⊢
        simpa [mkSAWrapper, mkSAConsumer_isSome] using hv
      obtain ⟨pr, hcons⟩ := Option.isSome_iff_exists.mp hcons_some
      obtain ⟨srow1, ctrl1⟩ := pr
      have hpres1 : SRowPresEq srow1 srow := by
        rw [hw] at hcons
        simp only [mkSAWrapper] at hcons
        exact mkSAConsumer_presEq hcons
      obtain ⟨srow2, ctrl2, hrest, hpres2⟩ :=
        ih srow1 ctrl1 fun q hq => hreg q (by simp [hq])
      have hfilter : (rest.filter fun a => a.2.validator srow1)
          = rest.filter fun a => a.2.validator srow := by
        refine List.filter_congr ?_
        intro q hq
        obtain ⟨reqS2, b2, hw2⟩ := hreg q (by simp [hq])
        rw [hw2]
        exact serviceValidator_congr reqS2 hpres1
      rw [hfilter] at hrest
      refine ⟨srow2, ctrl2, ?_, srowPresEq_trans hpres2 hpres1⟩
      simp only [sweepSAs, hv, if_true, hcons, hrest, List.filter_cons, List.map_cons]
    · obtain ⟨srow2, ctrl2, hrest, hpres2⟩ :=
        ih srow ctrl fun q hq => hreg q (by simp [hq])
      refine ⟨srow2, ctrl2, ?_, hpres2⟩
      have hv2 : sa.validator srow = false := by
        cases h2 : sa.validator srow
        · rfl
        · exact absurd h2 hv
      simp only [sweepSAs, hv2, Bool.false_eq_true, if_false, hrest,
        List.filter_cons, List.map_cons]

/-- One system's entity loop delivers exactly the entities its component
validator accepts, in registry order; it preserves the service row's
presence pattern, and the entity registry keeps its IDs and presence
patterns. -/
theorem sweepEntities_spec {γ σ : Type} (sysId : Nat) (reqC : List Nat)
    (reqS : List SvcRef) (b : Behavior γ σ) (ents : List (Nat × Row γ))
    (srow : SRow σ) (ctrl : Ctrl)
    (hsv : serviceValidator reqS srow = true) :
    ∃ ents2 srow2 ctrl2,
      sweepEntities sysId (mkSystemWrapper reqC reqS b) ents srow ctrl
        = some (ents2, srow2, ctrl2,
          (ents.filter fun e => componentValidator reqC e.2).map
            fun e => Event.sysInvoked sysId e.1) ∧
      SRowPresEq srow2 srow ∧
      List.Forall₂ (fun x y => x.1 = y.1 ∧ RowPresEq x.2 y.2) ents2 ents := by
  induction ents generalizing srow ctrl with
  | nil => exact ⟨[], srow, ctrl, rfl, srowPresEq_refl srow, List.Forall₂.nil⟩
  | cons e rest ih =>
    obtain ⟨eid, row⟩ := e
    by_cases hcv : componentValidator reqC row = true
    · have hw : (mkSystemWrapper reqC reqS b).componentValidator row = true := hcv
      have hcons_some :
          ((mkSystemWrapper reqC reqS b).consumer row srow ctrl).isSome = true := by
        simp [mkSystemWrapper, mkConsumer_isSome, hcv, hsv]
      obtain ⟨pr, hcons⟩ := Option.isSome_iff_exists.mp hcons_some
      obtain ⟨row1, srow1, ctrl1⟩ := pr
      have hpres1 : RowPresEq row1 row ∧ SRowPresEq srow1 srow :=
        mkConsumer_presEq
          (show mkConsumer reqC reqS b row srow ctrl = some (row1, srow1, ctrl1) from hcons)
      have hsv1 : serviceValidator reqS srow1 = true :=
        (serviceValidator_congr reqS hpres1.2).trans hsv
      obtain ⟨ents2, srow2, ctrl2, hrest, hpres2, hf2⟩ := ih srow1 ctrl1 hsv1
      refine ⟨(eid, row1) :: ents2, srow2, ctrl2, ?_, srowPresEq_trans hpres2 hpres1.2,
        List.Forall₂.cons ⟨rfl, hpres1.1⟩ hf2⟩
      simp only [sweepEntities, hw, if_true, hcons, hrest, List.filter_cons, hcv,
        List.map_cons]
    · obtain ⟨ents2, srow2, ctrl2, hrest, hpres2, hf2⟩ := ih srow ctrl hsv
      refine ⟨(eid, row) :: ents2, srow2, ctrl2, ?_, hpres2,
        List.Forall₂.cons ⟨rfl, rowPresEq_refl row⟩ hf2⟩
      have hw : (mkSystemWrapper reqC reqS b).componentValidator row = false := by
        cases h2 : componentValidator reqC row
        · exact h2
        · exact absurd h2 hcv
      have hcv2 : componentValidator reqC row = false := hw
      simp only [sweepEntities, hw, Bool.false_eq_true, if_false, hrest,
        List.filter_cons, hcv2, List.map_cons]

/-- The system phase delivers, for each system in registry order whose
service validator accepts the incoming service row, exactly the entities
its component validator accepts, in registry order; presence patterns are
preserved throughout. -/
theorem sweepSystems_spec {γ σ : Type} (l : List (Nat × SystemWrapper γ σ))
    (ents : List (Nat × Row γ)) (srow : SRow σ) (ctrl : Ctrl)
    (hreg : ∀ p ∈ l, p.2.Registered) :
    ∃ ents2 srow2 ctrl2,
      sweepSystems l ents srow ctrl = some (ents2, srow2, ctrl2,
        (l.filter fun p => p.2.serviceValidator srow).flatMap fun p =>
          (ents.filter fun e => p.2.componentValidator e.2).map
            fun e => Event.sysInvoked p.1 e.1) ∧
      SRowPresEq srow2 srow ∧
      List.Forall₂ (fun x y => x.1 = y.1 ∧ RowPresEq x.2 y.2) ents2 ents := by
  induction l generalizing ents srow ctrl with
  | nil => exact ⟨ents, srow, ctrl, rfl, srowPresEq_refl srow, forall2_presEq_refl ents⟩
  | cons p rest ih =>
    obtain ⟨sysId, w⟩ := p
    obtain ⟨reqC, reqS, b, hw⟩ := hreg (sysId, w) (by simp)
    replace hw : w = mkSystemWrapper reqC reqS b := hw
    by_cases hv : w.serviceValidator srow = true
    · have hsv : serviceValidator reqS srow = true := by rw [hw] at hv; exact hv
      obtain ⟨ents1, srow1, ctrl1, hent, hpres1, hf1⟩ :=
        sweepEntities_spec sysId reqC reqS b ents srow ctrl hsv
      obtain ⟨ents2, srow2, ctrl2, hrest, hpres2, hf2⟩ :=
        ih ents1 srow1 ctrl1 fun q hq => hreg q (by simp [hq])
      have hfilter : (rest.filter fun q => q.2.serviceValidator srow1)
          = rest.filter fun q => q.2.serviceValidator srow := by
        refine List.filter_congr ?_
        intro q hq
        obtain ⟨reqC2, reqS2, b2, hw2⟩ := hreg q (by simp [hq])
        rw [hw2]
        exact serviceValidator_congr reqS2 hpres1
      rw [hfilter] at hrest
      have hinner : ((rest.filter fun q => q.2.serviceValidator srow).flatMap fun q =>
            (ents1.filter fun e => q.2.componentValidator e.2).map
              fun e => Event.sysInvoked q.1 e.1)
          = (rest.filter fun q => q.2.serviceValidator srow).flatMap fun q =>
            (ents.filter fun e => q.2.componentValidator e.2).map
              fun e => Event.sysInvoked q.1 e.1 := by
        refine flatMap_congr _ _ _ ?_
        intro q hq
        obtain ⟨reqC2, reqS2, b2, hw2⟩ :=
          hreg q (by simp [(List.mem_filter.mp hq).1])
        rw [hw2]
        exact filter_map_ents_congr reqC2 _ hf1
      rw [hinner] at hrest
      refine ⟨ents2, srow2, ctrl2, ?_, srowPresEq_trans hpres2 hpres1,
        forall2_presEq_trans hf2 hf1⟩
      rw [hw]
      simp only [mkSystemWrapper] at hent ⊢
      simp only [sweepSystems, hsv, if_true, hent, hrest, List.filter_cons,
        List.flatMap_cons]
    · obtain ⟨ents2, srow2, ctrl2, hrest, hpres2, hf2⟩ :=
        ih ents srow ctrl fun q hq => hreg q (by simp [hq])
      refine ⟨ents2, srow2, ctrl2, ?_, hpres2, hf2⟩
      have hv2 : w.serviceValidator srow = false := by
        cases h2 : w.serviceValidator srow
        · rfl
        · exact absurd h2 hv
      simp only [sweepSystems, hv2, Bool.false_eq_true, if_false, hrest,
        List.filter_cons, List.flatMap_cons]

/-- On an engine whose behaviour units all came from their registration
functions, one `Sweep` succeeds and its trace is exactly the trace the
specification describes. -/
theorem Sweep_spec {γ σ : Type} {nc ns : Nat} (s : State γ σ nc ns)
    (hreg : s.Registered) :
    ∃ s2, Sweep s = some (s2, specSweepTrace s) := by
  obtain ⟨srow1, ctrl1, hsa, hpres1⟩ :=
    sweepSAs_spec s.serviceActions s.services s.ctrl hreg.2
  obtain ⟨ents2, srow2, ctrl2, hsys, hpres2, hf2⟩ :=
    sweepSystems_spec s.systems s.entities srow1 ctrl1 hreg.1
  have hfilter : (s.systems.filter fun p => p.2.serviceValidator srow1)
      = s.systems.filter fun p => p.2.serviceValidator s.services := by
    refine List.filter_congr ?_
    intro q hq
    obtain ⟨reqC2, reqS2, b2, hw2⟩ := hreg.1 q hq
    rw [hw2]
    exact serviceValidator_congr reqS2 hpres1
  rw [hfilter] at hsys
  refine ⟨{ s with entities := ents2, services := srow2, ctrl := ctrl2 }, ?_⟩
  simp only [Sweep, hsa, hsys]
  rfl

/-- The system phase of the specified trace is strictly ordered: blocks by
system registration ID, entities inside a block by entity ID. -/
theorem sysPart_pairwise {γ σ : Type} (l : List (Nat × SystemWrapper γ σ))
    (ents : List (Nat × Row γ))
    (hl : List.Pairwise (fun p q => p.1 < q.1) l)
    (hent : List.Pairwise (fun p q => p.1 < q.1) ents) :
    List.Pairwise eventLt (l.flatMap fun p =>
      (ents.filter fun e => p.2.componentValidator e.2).map
        fun e => Event.sysInvoked p.1 e.1) := by
  induction l with
  | nil => exact List.Pairwise.nil
  | cons p rest ih =>
    rw [List.flatMap_cons, List.pairwise_append]
    refine ⟨?_, ih (List.pairwise_cons.mp hl).2, ?_⟩
    · exact List.Pairwise.map _ (fun a b hab => Or.inr ⟨rfl, hab⟩)
        (List.Pairwise.filter _ hent)
    · intro x hx y hy
      obtain ⟨e, he, rfl⟩ := List.mem_map.mp hx
      obtain ⟨q, hq, hy2⟩ := List.mem_flatMap.mp hy
      obtain ⟨f, hf, rfl⟩ := List.mem_map.mp hy2
      exact Or.inl (List.rel_of_pairwise_cons hl hq)

/-- With key-sorted registries (the `std::map` invariant), the specified
sweep trace is strictly ordered by `eventLt`. -/
theorem specSweepTrace_pairwise {γ σ : Type} {nc ns : Nat}
    (s : State γ σ nc ns)
    (hsa : List.Pairwise (fun p q => p.1 < q.1) s.serviceActions)
    (hsys : List.Pairwise (fun p q => p.1 < q.1) s.systems)
    (hent : List.Pairwise (fun p q => p.1 < q.1) s.entities) :
    List.Pairwise eventLt (specSweepTrace s) := by
  rw [specSweepTrace, List.pairwise_append]
  refine ⟨List.Pairwise.map _ (fun a b hab => hab) (List.Pairwise.filter _ hsa),
    sysPart_pairwise _ _ (List.Pairwise.filter _ hsys) hent, ?_⟩
  intro x hx y hy
  obtain ⟨a, ha, rfl⟩ := List.mem_map.mp hx
  obtain ⟨q, hq, hy2⟩ := List.mem_flatMap.mp hy
  obtain ⟨f, hf, rfl⟩ := List.mem_map.mp hy2
  exact trivial

/-! Concrete states with registered behaviour units for evaluation. -/

/-- An engine with one service action (no requirements), one system
requiring component 0, and two entities of which only entity 0 holds
component 0. -/
def sweepWitState : State Nat Nat 2 2 :=
  { idleState with
    entities := [(0, presentRow), (1, [none, none])],
    systems := [(0, mkSystemWrapper [0] [] trivB)],
    serviceActions := [(0, mkSAWrapper [] trivSA)] }

theorem sweepWitState_registered : sweepWitState.Registered := by
  constructor
  · intro p hp
    rw [show sweepWitState.systems = [(0, mkSystemWrapper [0] [] trivB)] from rfl,
      List.mem_singleton] at hp
    exact ⟨[0], [], trivB, congrArg Prod.snd hp⟩
  · intro p hp
    rw [show sweepWitState.serviceActions = [(0, mkSAWrapper [] trivSA)] from rfl,
      List.mem_singleton] at hp
    exact ⟨[], trivSA, congrArg Prod.snd hp⟩

/-- Like `sweepWitState` but with a system declaring an empty requirement
set. -/
def sweepWitState2 : State Nat Nat 2 2 :=
  { idleState with
    entities := [(0, presentRow), (1, [none, none])],
    systems := [(0, mkSystemWrapper [] [] trivB)],
    serviceActions := [(0, mkSAWrapper [] trivSA)] }

theorem sweepWitState2_registered : sweepWitState2.Registered := by
  constructor
  · intro p hp
    rw [show sweepWitState2.systems = [(0, mkSystemWrapper [] [] trivB)] from rfl,
      List.mem_singleton] at hp
    exact ⟨[], [], trivB, congrArg Prod.snd hp⟩
  · intro p hp
    rw [show sweepWitState2.serviceActions = [(0, mkSAWrapper [] trivSA)] from rfl,
      List.mem_singleton] at hp
    exact ⟨[], trivSA, congrArg Prod.snd hp⟩

/-! Claim C3. -/

/-- Claim C3: one `Sweep` visits every service action whose validator
accepts before any system, service actions in ascending registration-ID
order, then systems in ascending registration-ID order; a system whose
service validator rejects is skipped with no entity visited, and an
accepted system is invoked exactly on the entities (in ascending entity-ID
order) whose rows its component validator accepts — the trace equals the
specification's trace and is strictly `eventLt`-sorted. -/
theorem sweep_trace_order {γ σ : Type} {nc ns : Nat}
    (s s2 : State γ σ nc ns) (tr : List Event)
    (hreg : s.Registered)
    (hsweep : Sweep s = some (s2, tr))
    (hsa : List.Pairwise (fun p q => p.1 < q.1) s.serviceActions)
    (hsys : List.Pairwise (fun p q => p.1 < q.1) s.systems)
    (hent : List.Pairwise (fun p q => p.1 < q.1) s.entities) :
    tr = specSweepTrace s ∧ List.Pairwise eventLt tr := by
  obtain ⟨s3, h⟩ := Sweep_spec s hreg
  rw [h] at hsweep
  injection hsweep with h1
  have htr : tr = specSweepTrace s := (congrArg (fun t => t.2) h1).symm
  exact ⟨htr, htr ▸ specSweepTrace_pairwise s hsa hsys hent⟩

/-- Claim C3 witness: on `sweepWitState` the sweep trace is the service
action first, then the one qualifying entity of the system, and it is
strictly ordered. -/
theorem sweep_trace_order_witness :
    [Event.saInvoked 0, Event.sysInvoked 0 0] = specSweepTrace sweepWitState ∧
    List.Pairwise eventLt [Event.saInvoked 0, Event.sysInvoked 0 0] :=
  sweep_trace_order sweepWitState sweepWitState
    [Event.saInvoked 0, Event.sysInvoked 0 0]
    sweepWitState_registered rfl
    (by simp [sweepWitState, idleState, initState])
    (by simp [sweepWitState, idleState, initState])
    (by simp [sweepWitState, idleState, initState, List.pairwise_cons])

/-! Claim C9. -/

/-- Claim C9: a system or service action registered with an empty
requirement set has validators accepting every entity row and every
service row, so in any successful sweep the service action fires and the
system fires on every entity. -/
theorem empty_requirements_fire {γ σ : Type} {nc ns : Nat}
    (s s2 : State γ σ nc ns) (tr : List Event) (sysId said : Nat)
    (b : Behavior γ σ) (b2 : SABehavior σ)
    (hreg : s.Registered)
    (hsysMem : (sysId, mkSystemWrapper [] [] b) ∈ s.systems)
    (hsaMem : (said, mkSAWrapper [] b2) ∈ s.serviceActions)
    (hsweep : Sweep s = some (s2, tr)) :
    (∀ row : Row γ,
      (mkSystemWrapper ([] : List Nat) ([] : List SvcRef) b).componentValidator row
        = true) ∧
    (∀ srow : SRow σ,
      (mkSystemWrapper ([] : List Nat) ([] : List SvcRef) b).serviceValidator srow
        = true) ∧
    (∀ srow : SRow σ,
      (mkSAWrapper ([] : List SvcRef) b2).validator srow = true) ∧
    Event.saInvoked said ∈ tr ∧
    (∀ e ∈ s.entities, Event.sysInvoked sysId e.1 ∈ tr) := by
  obtain ⟨s3, h⟩ := Sweep_spec s hreg
  rw [h] at hsweep
  injection hsweep with h1
  have htr : tr = specSweepTrace s := (congrArg (fun t => t.2) h1).symm
  subst htr
  refine ⟨fun row => rfl, fun srow => rfl, fun srow => rfl, ?_, ?_⟩
  · rw [specSweepTrace]
    refine List.mem_append_left _ ?_
    exact List.mem_map.mpr ⟨(said, mkSAWrapper [] b2),
      List.mem_filter.mpr ⟨hsaMem, rfl⟩, rfl⟩
  · intro e he
    rw [specSweepTrace]
    refine List.mem_append_right _ ?_
    refine List.mem_flatMap.mpr ⟨(sysId, mkSystemWrapper [] [] b),
      List.mem_filter.mpr ⟨hsysMem, rfl⟩, ?_⟩
    exact List.mem_map.mpr ⟨e, List.mem_filter.mpr ⟨he, rfl⟩, rfl⟩

/-- Claim C9 witness: on `sweepWitState2` the empty-requirement service
action fires, and the empty-requirement system fires even on the entity
with every slot absent. -/
theorem empty_requirements_fire_witness :
    Event.saInvoked 0
        ∈ [Event.saInvoked 0, Event.sysInvoked 0 0, Event.sysInvoked 0 1] ∧
    Event.sysInvoked 0 1
        ∈ [Event.saInvoked 0, Event.sysInvoked 0 0, Event.sysInvoked 0 1] := by
  have h := empty_requirements_fire sweepWitState2 sweepWitState2
    [Event.saInvoked 0, Event.sysInvoked 0 0, Event.sysInvoked 0 1] 0 0 trivB trivSA
    sweepWitState2_registered (List.Mem.head _) (List.Mem.head _) rfl
  exact ⟨h.2.2.2.1, h.2.2.2.2 (1, [none, none]) (List.Mem.tail _ (List.Mem.head _))⟩

/-! Claim C10. -/

/-- Claim C10: during `Sweep`, consumers run only immediately after their
validators accepted the very rows passed to them, so the `.value()`
extraction in the manufactured invokers never reads an empty optional: on
an engine whose behaviour units all come from registration, `Sweep` never
reaches the undefined-behaviour outcome. -/
theorem sweep_never_accesses_empty_optional {γ σ : Type} {nc ns : Nat}
    (s : State γ σ nc ns) (hreg : s.Registered) : (Sweep s).isSome = true := by
  obtain ⟨s2, h⟩ := Sweep_spec s hreg
  rw [h]
  rfl

/-- Claim C10 witness: the sweep over `sweepWitState` (mixed present and
absent slots) completes without any empty-optional access. -/
theorem sweep_never_accesses_empty_optional_witness :
    (Sweep sweepWitState).isSome = true :=
  sweep_never_accesses_empty_optional sweepWitState sweepWitState_registered

/-! Claim C5. -/

/-- Every terminating execution of `Run`'s loop is a chain of complete
sweeps ending with the local flag observed false. -/
theorem runLoop_chain {γ σ : Type} {nc ns : Nat} (fuel : Nat)
    (s s2 : State γ σ nc ns) (trs : List (List Event))
    (h : RunLoop fuel s = some (s2, trs)) :
    SweepChain s trs s2 ∧ s2.ctrl.localContinue = false := by
  induction fuel generalizing s trs with
  | zero => simp [RunLoop] at h
  | succ n ih =>
    rw [RunLoop] at h
    by_cases hl : s.ctrl.localContinue = true
    · rw [if_pos hl] at h
      cases hs : Sweep s with
      | none => rw [hs] at h; simp at h
      | some pr =>
        obtain ⟨s1, tr⟩ := pr
        rw [hs] at h
        simp only [] at h
        cases hr : RunLoop n s1 with
        | none => rw [hr] at h; simp at h
        | some pr2 =>
          obtain ⟨s3, trs3⟩ := pr2
          rw [hr] at h
          simp only [Option.some.injEq, Prod.mk.injEq] at h
          obtain ⟨hs2, htrs⟩ := h
          subst hs2
          subst htrs
          obtain ⟨ch, hflag⟩ := ih s1 trs3 hr
          exact ⟨SweepChain.step s s1 s3 tr trs3 hl hs ch, hflag⟩
    · rw [if_neg hl] at h
      simp only [Option.some.injEq, Prod.mk.injEq] at h
      obtain ⟨hs2, htrs⟩ := h
      subst hs2
      subst htrs
      have hfalse : s.ctrl.localContinue = false := by
        cases hc : s.ctrl.localContinue
        · rfl
        · exact absurd hc hl
      exact ⟨SweepChain.done s hfalse, hfalse⟩

/-- Claim C5: `Run` fails with `AlreadyDispatched` exactly when a
dispatched worker exists; otherwise it sets the local flag and performs
complete sweeps until the flag is observed false — whenever it returns, the
execution was a chain of full sweeps (it never stops mid-sweep) and the
final state has the flag cleared. -/
theorem run_stop_at_sweep_boundary {γ σ : Type} {nc ns : Nat}
    (fuel : Nat) (s : State γ σ nc ns) :
    (s.ctrl.dispatched = true → Run fuel s = .error .alreadyDispatched) ∧
    (s.ctrl.dispatched = false → ∀ s2 trs,
      Run fuel s = .ok (some (s2, trs)) →
      s2.ctrl.localContinue = false ∧
      SweepChain { s with ctrl := { s.ctrl with localContinue := true } } trs s2) := by
  constructor
  · intro hd
    simp [Run, hd]
  · intro hd s2 trs h
    rw [Run, if_neg (by simp [hd])] at h
    simp only [Except.ok.injEq] at h
    obtain ⟨ch, hflag⟩ := runLoop_chain fuel _ s2 trs h
    exact ⟨hflag, ch⟩

/-- A service action that requests stop through the manager reference. -/
def stopSA : SABehavior Nat := ⟨fun ss => (ss, true)⟩

/-- An engine with one service action requiring the manager and requesting
stop on every invocation. -/
def runWitState : State Nat Nat 2 2 :=
  { idleState with serviceActions := [(0, mkSAWrapper [SvcRef.manager] stopSA)] }

/-- `runWitState` after its single sweep: the stop request cleared the
local flag. -/
def runWitStopped : State Nat Nat 2 2 :=
  { runWitState with ctrl :=
    { dispatched := false, stopRequested := false, localContinue := false } }

/-- Claim C5 witness: on `runWitState` (no worker dispatched), `Run`
performs exactly one complete sweep, in which the stop request is observed,
and returns at the sweep boundary with the flag cleared. -/
theorem run_stop_at_sweep_boundary_witness :
    runWitStopped.ctrl.localContinue = false ∧
    SweepChain { runWitState with ctrl := { runWitState.ctrl with localContinue := true } }
      [[Event.saInvoked 0]] runWitStopped :=
  (run_stop_at_sweep_boundary 2 runWitState).2 rfl runWitStopped
    [[Event.saInvoked 0]] rfl

end ECSModel
